import Mathlib

/-!
Verification of the reader-writer cache demo
(`src/106_Shared_Mutex/reader_writer_pattern.rs`).

The Rust program defines `ThreadSafeCache`, a `HashMap<String, String>`
guarded by an `RwLock`, with three operations:

* `read(&self, key) -> String` — acquires a shared lock, returns a clone
  of the stored value, or the string `"Not found"` when the key is absent;
* `write(&self, key, value)` — acquires the exclusive lock and performs
  `HashMap::insert` (overwrite when the key exists, append otherwise);
* `size(&self) -> usize` — acquires a shared lock, returns `HashMap::len`.

We embed the map as an association list with `HashMap` semantics
(`insert` replaces the value of an existing key without changing the
entry count, otherwise adds one new entry; `len` is the number of
entries).  Lock acquisition serialises every operation, so the observable
behaviour of any execution is a linearisation: a single sequence of
`read` / `write` / `size` calls applied one after the other.  Traces of
operations are modelled by `CacheOp` and `runTrace`.  Poisoning of the
lock (a panic of `.unwrap()`) is modelled in `LockedCache` by an
`Option` result, and the reader-writer lock discipline itself by the
transition system `LockStep`.
-/

/-- The sentinel string returned by `read` for an absent key
(`"Not found".to_string()` in the source). -/
def notFoundSentinel : String := "Not found"

/-- Embedding of `struct ThreadSafeCache`.  The `cache` field is the
`HashMap<String, String>` behind the `RwLock`, represented as an
association list of key-value pairs (one entry per distinct key). -/
structure ThreadSafeCache where
  cache : List (String × String)
deriving DecidableEq, Repr

/-- Embedding of `ThreadSafeCache::new`: the empty map. -/
def ThreadSafeCache.new : ThreadSafeCache := ⟨[]⟩

/-- Embedding of `ThreadSafeCache::read`: look the key up and return a
clone of the stored value, or `"Not found"` when absent
(`cache.get(key).map(|v| v.clone()).unwrap_or_else(|| "Not found".to_string())`). -/
def ThreadSafeCache.read (self : ThreadSafeCache) (key : String) : String :=
  match self.cache.lookup key with
  | some v => v
  | none => notFoundSentinel

/-- One-key update of the association list, with `HashMap::insert`
semantics: replace the value when the key is already present (entry
count unchanged), otherwise add a fresh entry. -/
def insertPair (l : List (String × String)) (k v : String) :
    List (String × String) :=
  match l with
  | [] => [(k, v)]
  | (a, b) :: tl => if a == k then (k, v) :: tl else (a, b) :: insertPair tl k v

/-- Embedding of `ThreadSafeCache::write`, i.e. `cache.insert(key, value)`. -/
def ThreadSafeCache.write (self : ThreadSafeCache) (key value : String) :
    ThreadSafeCache :=
  ⟨insertPair self.cache key value⟩

/-- Embedding of `ThreadSafeCache::size`, i.e. `HashMap::len`: the
number of entries. -/
def ThreadSafeCache.size (self : ThreadSafeCache) : Nat :=
  self.cache.length

/-- The keys currently stored in the cache, in entry order. -/
def ThreadSafeCache.keys (self : ThreadSafeCache) : List String :=
  self.cache.map Prod.fst

/-- One call on the shared cache, as issued by the writer and reader
threads of `main`. -/
inductive CacheOp where
  | write (key value : String)
  | read (key : String)
  | size
deriving DecidableEq, Repr

/-- The observable result of one call: `write` returns unit, `read`
returns a string, `size` returns a count. -/
inductive CacheOut where
  | unit
  | value (v : String)
  | count (n : Nat)
deriving DecidableEq, Repr

/-- Small-step semantics of one linearised call: the cache state after
the call together with the value the call returns.  `read` and `size`
take `&self` under a shared lock and return without touching the map;
`write` replaces the state via `HashMap::insert`. -/
def CacheOp.step (op : CacheOp) (c : ThreadSafeCache) :
    ThreadSafeCache × CacheOut :=
  match op with
  | .write k v => (c.write k v, .unit)
  | .read k => (c, .value (c.read k))
  | .size => (c, .count c.size)

/-- Run a linearised trace of calls from a starting cache state. -/
def runTrace (c : ThreadSafeCache) : List CacheOp → ThreadSafeCache
  | [] => c
  | op :: ops => runTrace (op.step c).1 ops

/-- Whether an operation is a `write` to the given key. -/
def CacheOp.writesKey (op : CacheOp) (key : String) : Bool :=
  match op with
  | .write k _ => k == key
  | _ => false

/-- The key-value pairs written by a trace, in order. -/
def writesOf : List CacheOp → List (String × String)
  | [] => []
  | .write k v :: ops => (k, v) :: writesOf ops
  | .read _ :: ops => writesOf ops
  | .size :: ops => writesOf ops

/-- The keys written by a trace, in order (with multiplicity). -/
def writeKeys (ops : List CacheOp) : List String :=
  (writesOf ops).map Prod.fst

/-- Apply a list of key-value writes in order. -/
def applyWrites (c : ThreadSafeCache) : List (String × String) → ThreadSafeCache
  | [] => c
  | (k, v) :: ws => applyWrites (c.write k v) ws

/-- The five key-value pairs the writer thread of `main` inserts:
`format!("key{}", i)` mapped to `format!("value{}", i)` for `i in 0..5`. -/
def writerWrites : List (String × String) :=
  (List.range 5).map (fun i => ("key" ++ toString i, "value" ++ toString i))

/-- Result of acquiring the `RwLock` (`self.cache.read()` /
`self.cache.write()` in the source): `Err` when a prior holder panicked
while holding the lock (poisoning), `Ok` with the guard otherwise.  The
source calls `.unwrap()` on this result, which panics on `Err`. -/
def acquireLock (poisoned : Bool) : Except Unit Unit :=
  if poisoned then Except.error () else Except.ok ()

/-- The cache together with the poison flag of its `RwLock`, for
modelling the `.unwrap()` calls in `read`, `write` and `size`.  A panic
of `.unwrap()` (termination of the calling thread's execution path, no
value produced) is modelled as `none`. -/
structure LockedCache where
  poisoned : Bool
  inner : ThreadSafeCache

/-- `ThreadSafeCache::read` including the `.unwrap()` on the lock:
`none` models the panic on a poisoned lock. -/
def LockedCache.read (self : LockedCache) (key : String) : Option String :=
  match acquireLock self.poisoned with
  | Except.error _ => none
  | Except.ok _ => some (self.inner.read key)

/-- `ThreadSafeCache::write` including the `.unwrap()` on the lock. -/
def LockedCache.write (self : LockedCache) (key value : String) :
    Option LockedCache :=
  match acquireLock self.poisoned with
  | Except.error _ => none
  | Except.ok _ => some ⟨self.poisoned, self.inner.write key value⟩

/-- `ThreadSafeCache::size` including the `.unwrap()` on the lock. -/
def LockedCache.size (self : LockedCache) : Option Nat :=
  match acquireLock self.poisoned with
  | Except.error _ => none
  | Except.ok _ => some self.inner.size

/-- Modelled from the spec: the state of the reader-writer lock guarding
the cache store (the lock itself is `std::sync::RwLock`, outside this
repository).  `readers` counts tasks currently holding shared access,
`writers` counts tasks currently holding exclusive access. -/
structure LockState where
  readers : Nat
  writers : Nat
deriving DecidableEq, Repr

/-- Modelled from the spec: the lock discipline of §4.1 and the
glossary.  Shared access is granted only while no task holds exclusive
access; exclusive access is granted only when no task holds any access;
releases give back one held access. -/
inductive LockStep : LockState → LockState → Prop where
  | acquireShared (s : LockState) (h : s.writers = 0) :
      LockStep s ⟨s.readers + 1, s.writers⟩
  | releaseShared (s : LockState) (h : 0 < s.readers) :
      LockStep s ⟨s.readers - 1, s.writers⟩
  | acquireExclusive (s : LockState) (hr : s.readers = 0) (hw : s.writers = 0) :
      LockStep s ⟨s.readers, s.writers + 1⟩
  | releaseExclusive (s : LockState) (h : 0 < s.writers) :
      LockStep s ⟨s.readers, s.writers - 1⟩

/-- The lock of a freshly created cache: no holders. -/
def lockInit : LockState := ⟨0, 0⟩

/-- Lock states reachable from the initial state by the discipline. -/
inductive LockReachable : LockState → Prop where
  | init : LockReachable lockInit
  | step {s t : LockState} : LockReachable s → LockStep s t → LockReachable t

/-- The mutual-exclusion invariant of §4.1: either no writer holds the
lock (any number of readers), or exactly one writer and no readers. -/
def mutualExclusion (s : LockState) : Prop :=
  s.writers = 0 ∨ (s.writers = 1 ∧ s.readers = 0)

example : ThreadSafeCache.new.read "key0" = "Not found" := by decide

example : (ThreadSafeCache.new.write "key0" "value0").read "key0" = "value0" := by
  decide

example : writerWrites =
    [("key0", "value0"), ("key1", "value1"), ("key2", "value2"),
     ("key3", "value3"), ("key4", "value4")] := by decide

/-! Basic lemmas about one `write`. -/

theorem lookup_insertPair_self (l : List (String × String)) (k v : String) :
    (insertPair l k v).lookup k = some v := by
  induction l with
  | nil => simp [insertPair, List.lookup]
  | cons hd tl ih =>
    obtain ⟨a, b⟩ := hd
    by_cases h : a = k
    · simp [insertPair, List.lookup, h]
    · have hb : (a == k) = false := beq_eq_false_iff_ne.mpr h
      have hb' : (k == a) = false := beq_eq_false_iff_ne.mpr (Ne.symm h)
      simp [insertPair, List.lookup, hb, hb', ih]

theorem lookup_insertPair_ne (l : List (String × String)) (k k' v : String)
    (h : k' ≠ k) : (insertPair l k' v).lookup k = l.lookup k := by
  induction l with
  | nil => simp [insertPair, List.lookup, beq_eq_false_iff_ne.mpr (Ne.symm h)]
  | cons hd tl ih =>
    obtain ⟨a, b⟩ := hd
    by_cases ha : a = k'
    · have hk : (k == a) = false := by
        rw [beq_eq_false_iff_ne, ha]; exact fun e => h e.symm
      have hk' : (k == k') = false :=
        beq_eq_false_iff_ne.mpr fun e => h e.symm
      simp [insertPair, List.lookup, ha, hk, hk']
    · have hb : (a == k') = false := beq_eq_false_iff_ne.mpr ha
      by_cases hc : k = a
      · simp [insertPair, List.lookup, hb, hc]
      · have hc' : (k == a) = false := beq_eq_false_iff_ne.mpr hc
        simp [insertPair, List.lookup, hb, hc', ih]

theorem ThreadSafeCache.read_write_self (c : ThreadSafeCache) (k v : String) :
    (c.write k v).read k = v := by
  simp [ThreadSafeCache.read, ThreadSafeCache.write, lookup_insertPair_self]

theorem ThreadSafeCache.read_write_ne (c : ThreadSafeCache) (k k' v : String)
    (h : k' ≠ k) : (c.write k' v).read k = c.read k := by
  simp [ThreadSafeCache.read, ThreadSafeCache.write, lookup_insertPair_ne _ _ _ _ h]

theorem keys_insertPair_mem (l : List (String × String)) (k v : String)
    (h : k ∈ l.map Prod.fst) :
    (insertPair l k v).map Prod.fst = l.map Prod.fst := by
  induction l with
  | nil => simp at h
  | cons hd tl ih =>
    obtain ⟨a, b⟩ := hd
    by_cases ha : a = k
    · simp [insertPair, ha]
    · have hb : (a == k) = false := beq_eq_false_iff_ne.mpr ha
      have h' : k ∈ tl.map Prod.fst := by
        simp only [List.map_cons, List.mem_cons] at h
        exact h.resolve_left fun e => ha e.symm
      simp [insertPair, hb, ih h']

theorem keys_insertPair_not_mem (l : List (String × String)) (k v : String)
    (h : k ∉ l.map Prod.fst) :
    (insertPair l k v).map Prod.fst = l.map Prod.fst ++ [k] := by
  induction l with
  | nil => simp [insertPair]
  | cons hd tl ih =>
    obtain ⟨a, b⟩ := hd
    simp only [List.map_cons, List.mem_cons] at h
    push_neg at h
    have hb : (a == k) = false := beq_eq_false_iff_ne.mpr fun e => h.1 e.symm
    simp [insertPair, hb, ih h.2]

theorem length_insertPair_mem (l : List (String × String)) (k v : String)
    (h : k ∈ l.map Prod.fst) : (insertPair l k v).length = l.length := by
  have := congrArg List.length (keys_insertPair_mem l k v h)
  simpa using this

theorem length_insertPair_not_mem (l : List (String × String)) (k v : String)
    (h : k ∉ l.map Prod.fst) : (insertPair l k v).length = l.length + 1 := by
  have := congrArg List.length (keys_insertPair_not_mem l k v h)
  simpa using this

theorem ThreadSafeCache.size_write_mem (c : ThreadSafeCache) (k v : String)
    (h : k ∈ c.keys) : (c.write k v).size = c.size :=
  length_insertPair_mem c.cache k v h

theorem ThreadSafeCache.size_write_not_mem (c : ThreadSafeCache) (k v : String)
    (h : k ∉ c.keys) : (c.write k v).size = c.size + 1 :=
  length_insertPair_not_mem c.cache k v h

theorem ThreadSafeCache.keys_write_mem (c : ThreadSafeCache) (k v : String)
    (h : k ∈ c.keys) : (c.write k v).keys = c.keys :=
  keys_insertPair_mem c.cache k v h

theorem ThreadSafeCache.keys_write_not_mem (c : ThreadSafeCache) (k v : String)
    (h : k ∉ c.keys) : (c.write k v).keys = c.keys ++ [k] :=
  keys_insertPair_not_mem c.cache k v h

theorem ThreadSafeCache.mem_keys_write (c : ThreadSafeCache) (k v : String) :
    (c.write k v).keys = c.keys ∨ (c.write k v).keys = c.keys ++ [k] := by
  by_cases h : k ∈ c.keys
  · exact Or.inl (c.keys_write_mem k v h)
  · exact Or.inr (c.keys_write_not_mem k v h)

/-! Lemmas about traces. -/

theorem runTrace_append (c : ThreadSafeCache) (ops ops' : List CacheOp) :
    runTrace c (ops ++ ops') = runTrace (runTrace c ops) ops' := by
  induction ops generalizing c with
  | nil => rfl
  | cons op ops ih => simp [runTrace, ih]

theorem runTrace_eq_applyWrites (c : ThreadSafeCache) (ops : List CacheOp) :
    runTrace c ops = applyWrites c (writesOf ops) := by
  induction ops generalizing c with
  | nil => rfl
  | cons op ops ih =>
    cases op with
    | write k v => simp [runTrace, writesOf, applyWrites, CacheOp.step, ih]
    | read k => simp [runTrace, writesOf, CacheOp.step, ih]
    | size => simp [runTrace, writesOf, CacheOp.step, ih]

theorem read_runTrace_no_write (c : ThreadSafeCache) (k : String)
    (ops : List CacheOp) (h : ∀ op ∈ ops, op.writesKey k = false) :
    (runTrace c ops).read k = c.read k := by
  induction ops generalizing c with
  | nil => rfl
  | cons op ops ih =>
    have hop := h op (List.mem_cons_self op ops)
    have hrest : ∀ op' ∈ ops, op'.writesKey k = false :=
      fun op' hm => h op' (List.mem_cons_of_mem op hm)
    cases op with
    | write k' v =>
      have hne : k' ≠ k := by
        simpa [CacheOp.writesKey, beq_eq_false_iff_ne] using hop
      simpa [runTrace, CacheOp.step, ih _ hrest] using
        c.read_write_ne k k' v hne
    | read k' => simpa [runTrace, CacheOp.step] using ih c hrest
    | size => simpa [runTrace, CacheOp.step] using ih c hrest

theorem ThreadSafeCache.mem_keys_write_self (c : ThreadSafeCache) (k v : String) :
    k ∈ (c.write k v).keys := by
  by_cases h : k ∈ c.keys
  · rw [c.keys_write_mem k v h]; exact h
  · rw [c.keys_write_not_mem k v h]; simp

theorem size_runTrace_of_distinct (ops : List CacheOp) (c : ThreadSafeCache)
    (hnd : (writeKeys ops).Nodup)
    (hfresh : ∀ key ∈ writeKeys ops, key ∉ c.keys) :
    (runTrace c ops).size = c.size + (writeKeys ops).length := by
  induction ops generalizing c with
  | nil => simp [runTrace, writeKeys, writesOf]
  | cons op ops ih =>
    cases op with
    | write k v =>
      have hk : writeKeys (CacheOp.write k v :: ops) = k :: writeKeys ops := rfl
      rw [hk] at hnd hfresh ⊢
      have hknotin : k ∉ writeKeys ops := (List.nodup_cons.mp hnd).1
      have hnd' := (List.nodup_cons.mp hnd).2
      have hkc : k ∉ c.keys := hfresh k (List.mem_cons_self _ _)
      have hfresh' : ∀ key ∈ writeKeys ops, key ∉ (c.write k v).keys := by
        intro key hm
        rw [c.keys_write_not_mem k v hkc]
        simp only [List.mem_append, List.mem_singleton]
        push_neg
        exact ⟨hfresh key (List.mem_cons_of_mem _ hm), fun e => hknotin (e ▸ hm)⟩
      have hrec := ih (c.write k v) hnd' hfresh'
      rw [c.size_write_not_mem k v hkc] at hrec
      show (runTrace (c.write k v) ops).size = c.size + (k :: writeKeys ops).length
      rw [hrec]
      simp [Nat.add_comm, Nat.add_assoc, Nat.add_left_comm]
    | read k =>
      have hk : writeKeys (CacheOp.read k :: ops) = writeKeys ops := rfl
      rw [hk] at hnd hfresh ⊢
      exact ih c hnd hfresh
    | size =>
      have hk : writeKeys (CacheOp.size :: ops) = writeKeys ops := rfl
      rw [hk] at hnd hfresh ⊢
      exact ih c hnd hfresh

/-! Claim theorems. -/

/-- C1: after a `write(k, v)` completes and no subsequent write to `k`
occurs, any `read(k)` that begins after that write's release returns
exactly `v` (a copy of the stored value).  Lock acquisition serialises
all operations, so the reads and writes that follow the write form a
linearised trace `ops`; when no operation in it writes to `k`, reading
`k` at any later point yields `v`. -/
theorem claim_C1 (c : ThreadSafeCache) (k v : String) (ops : List CacheOp)
    (h : ∀ op ∈ ops, op.writesKey k = false) :
    (runTrace (c.write k v) ops).read k = v := by
  rw [read_runTrace_no_write _ _ _ h]
  exact c.read_write_self k v

theorem claim_C1_witness :
    (runTrace (ThreadSafeCache.new.write "key0" "value0")
      [CacheOp.read "key0", CacheOp.size,
       CacheOp.write "key1" "value1"]).read "key0" = "value0" :=
  claim_C1 ThreadSafeCache.new "key0" "value0"
    [CacheOp.read "key0", CacheOp.size, CacheOp.write "key1" "value1"]
    (by decide)

/-- C2: `read(k)` for a key never written returns the not-found
sentinel — starting from the freshly created empty cache, any trace of
operations none of which writes to `k` leaves `read k` returning
`"Not found"`: never a stale or default stored value, and as an
ordinary return value, not an error. -/
theorem claim_C2 (ops : List CacheOp) (k : String)
    (h : ∀ op ∈ ops, op.writesKey k = false) :
    (runTrace ThreadSafeCache.new ops).read k = notFoundSentinel := by
  rw [read_runTrace_no_write _ _ _ h]
  rfl

theorem claim_C2_witness :
    (runTrace ThreadSafeCache.new
      [CacheOp.write "key1" "value1", CacheOp.read "key0",
       CacheOp.size]).read "key0" = notFoundSentinel :=
  claim_C2 [CacheOp.write "key1" "value1", CacheOp.read "key0", CacheOp.size]
    "key0" (by decide)

/-- C3: `write(k, v1)` then `write(k, v2)` then `read(k)` returns `v2`;
the second write overwrites a present key and leaves `size()` unchanged;
`size()` grows by one exactly on the first insertion of a new key. -/
theorem claim_C3 (c : ThreadSafeCache) (k v1 v2 : String) :
    ((c.write k v1).write k v2).read k = v2 ∧
    ((c.write k v1).write k v2).size = (c.write k v1).size ∧
    (k ∉ c.keys → (c.write k v1).size = c.size + 1) := by
  refine ⟨(c.write k v1).read_write_self k v2, ?_,
    fun h => c.size_write_not_mem k v1 h⟩
  exact (c.write k v1).size_write_mem k v2 (c.mem_keys_write_self k v1)

theorem claim_C3_witness :
    ((ThreadSafeCache.new.write "k" "a").write "k" "b").read "k" = "b" ∧
    ((ThreadSafeCache.new.write "k" "a").write "k" "b").size =
      (ThreadSafeCache.new.write "k" "a").size ∧
    (ThreadSafeCache.new.write "k" "a").size = ThreadSafeCache.new.size + 1 :=
  ⟨(claim_C3 ThreadSafeCache.new "k" "a" "b").1,
   (claim_C3 ThreadSafeCache.new "k" "a" "b").2.1,
   (claim_C3 ThreadSafeCache.new "k" "a" "b").2.2 (by decide)⟩

/-- C4: starting from the freshly created empty cache, after any trace
whose writes use pairwise-distinct keys (interleaved with any number of
`read` and `size` calls), `size()` returns exactly the number of
writes. -/
theorem claim_C4 (ops : List CacheOp) (h : (writeKeys ops).Nodup) :
    (runTrace ThreadSafeCache.new ops).size = (writeKeys ops).length := by
  have := size_runTrace_of_distinct ops ThreadSafeCache.new h
    (by intro key hm; simp [ThreadSafeCache.keys, ThreadSafeCache.new])
  simpa [ThreadSafeCache.size, ThreadSafeCache.new] using this

theorem claim_C4_witness :
    (runTrace ThreadSafeCache.new
      [CacheOp.read "key0", CacheOp.write "key0" "value0", CacheOp.size,
       CacheOp.write "key1" "value1", CacheOp.read "key1"]).size = 2 := by
  have := claim_C4
    [CacheOp.read "key0", CacheOp.write "key0" "value0", CacheOp.size,
     CacheOp.write "key1" "value1", CacheOp.read "key1"] (by decide)
  simpa using this

/-- C5: in the end-to-end scenario, the writer performs exactly the five
writes `key0..key4 ↦ value0..value4` and the three readers perform only
reads; for any linearised trace whose writes are exactly the writer's
(in program order), after all threads join `size()` returns 5 and
`read(keyi)` returns `valuei` for each `i < 5`. -/
theorem claim_C5 (ops : List CacheOp) (h : writesOf ops = writerWrites) :
    (runTrace ThreadSafeCache.new ops).size = 5 ∧
    (runTrace ThreadSafeCache.new ops).read "key0" = "value0" ∧
    (runTrace ThreadSafeCache.new ops).read "key1" = "value1" ∧
    (runTrace ThreadSafeCache.new ops).read "key2" = "value2" ∧
    (runTrace ThreadSafeCache.new ops).read "key3" = "value3" ∧
    (runTrace ThreadSafeCache.new ops).read "key4" = "value4" := by
  rw [runTrace_eq_applyWrites, h]
  decide

theorem claim_C5_witness :
    (runTrace ThreadSafeCache.new
      [CacheOp.write "key0" "value0", CacheOp.read "key0", CacheOp.read "key1",
       CacheOp.write "key1" "value1", CacheOp.read "key2", CacheOp.size,
       CacheOp.write "key2" "value2", CacheOp.read "key3",
       CacheOp.write "key3" "value3", CacheOp.read "key4",
       CacheOp.write "key4" "value4", CacheOp.read "key0"]).size = 5 ∧
    (runTrace ThreadSafeCache.new
      [CacheOp.write "key0" "value0", CacheOp.read "key0", CacheOp.read "key1",
       CacheOp.write "key1" "value1", CacheOp.read "key2", CacheOp.size,
       CacheOp.write "key2" "value2", CacheOp.read "key3",
       CacheOp.write "key3" "value3", CacheOp.read "key4",
       CacheOp.write "key4" "value4", CacheOp.read "key0"]).read "key3" =
      "value3" := by
  have := claim_C5
    [CacheOp.write "key0" "value0", CacheOp.read "key0", CacheOp.read "key1",
     CacheOp.write "key1" "value1", CacheOp.read "key2", CacheOp.size,
     CacheOp.write "key2" "value2", CacheOp.read "key3",
     CacheOp.write "key3" "value3", CacheOp.read "key4",
     CacheOp.write "key4" "value4", CacheOp.read "key0"] (by decide)
  exact ⟨this.1, this.2.2.2.2.1⟩

/-- C6: `read` and `size` leave the cache contents entirely unchanged —
in the step semantics the state after a `read` or `size` call is
exactly the state before it (same entry mapping, hence same count);
only `write` produces a new state. -/
theorem claim_C6 (c : ThreadSafeCache) (k : String) :
    ((CacheOp.read k).step c).1 = c ∧
    (CacheOp.size.step c).1 = c ∧
    ((CacheOp.read k).step c).1.cache = c.cache ∧
    (CacheOp.size.step c).1.cache = c.cache :=
  ⟨rfl, rfl, rfl, rfl⟩

/-- C7: when the reader-writer lock is poisoned, `read`, `write` and
`size` all panic on `.unwrap()` (modelled as `none`) instead of
returning a normal result or silently continuing with the cache
contents. -/
theorem claim_C7 (c : LockedCache) (k v : String) (h : c.poisoned = true) :
    c.read k = none ∧ c.write k v = none ∧ c.size = none := by
  refine ⟨?_, ?_, ?_⟩ <;>
    simp [LockedCache.read, LockedCache.write, LockedCache.size, acquireLock, h]

theorem claim_C7_witness :
    LockedCache.read ⟨true, ThreadSafeCache.new⟩ "key0" = none ∧
    LockedCache.write ⟨true, ThreadSafeCache.new⟩ "key0" "value0" = none ∧
    LockedCache.size ⟨true, ThreadSafeCache.new⟩ = none :=
  claim_C7 ⟨true, ThreadSafeCache.new⟩ "key0" "value0" rfl

/-- C8: in every lock state reachable under the reader-writer
discipline, the active accessors are either (zero or more readers and no
writer) or (exactly one writer and no readers); both sets are never
nonempty simultaneously. -/
theorem claim_C8 (s : LockState) (h : LockReachable s) : mutualExclusion s := by
  induction h with
  | init => exact Or.inl rfl
  | step hr hstep ih =>
    cases hstep with
    | acquireShared ht => exact Or.inl ht
    | releaseShared ht =>
      cases ih with
      | inl h0 => exact Or.inl h0
      | inr h1 => exact (Nat.lt_irrefl 0 (h1.2 ▸ ht)).elim
    | acquireExclusive htr htw =>
      exact Or.inr ⟨by rw [htw], htr⟩
    | releaseExclusive ht =>
      cases ih with
      | inl h0 => exact (Nat.lt_irrefl 0 (h0 ▸ ht)).elim
      | inr h1 => exact Or.inl (by rw [h1.1])

theorem claim_C8_witness : mutualExclusion ⟨0, 1⟩ :=
  claim_C8 ⟨0, 1⟩
    (LockReachable.step LockReachable.init
      (LockStep.acquireExclusive lockInit rfl rfl))

/-- C9: the not-found sentinel is the literal string `"Not found"`, and
it is not distinguishable from a stored value at the public interface:
after `write("k", "Not found")`, `read("k")` returns exactly the same
result as reading a key that was never written. -/
theorem claim_C9 :
    notFoundSentinel = "Not found" ∧
    (ThreadSafeCache.new.write "k" notFoundSentinel).read "k" =
      ThreadSafeCache.new.read "j" ∧
    (ThreadSafeCache.new.write "k" notFoundSentinel).read "k" =
      "Not found" := by
  decide

/-- C10: the entry count never decreases: every single operation
(`read`, `write` or `size`) either leaves `size()` unchanged or
increases it by exactly one, from every starting cache state — and the
interface offers no removing or clearing operation (every `CacheOp` is
one of these three). -/
theorem claim_C10 (c : ThreadSafeCache) (op : CacheOp) :
    ((op.step c).1).size = c.size ∨ ((op.step c).1).size = c.size + 1 := by
  cases op with
  | write k v =>
    by_cases h : k ∈ c.keys
    · exact Or.inl (c.size_write_mem k v h)
    · exact Or.inr (c.size_write_not_mem k v h)
  | read k => exact Or.inl rfl
  | size => exact Or.inl rfl
